import Mathlib

/-!
# Verification of the kontrolleur import classifier and module decoder

A shallow embedding of `src/main.rs`: the capability classifier
(`WasiAssumptions`, `Assumptions`, the loop in `main`, and `report`) is
translated directly from the Rust source; the wasm module decoder, which the
source obtains from the external `parity_wasm` crate, is modelled from the
specification's description of the decoding algorithm (header validation,
generic section skipping by declared byte length, LEB128 integers,
length-prefixed UTF-8 names, and the import-section body).
-/

set_option maxRecDepth 4096

/-! ## Data model -/

/-- Import-kind tag of an import entry: `0 = Function, 1 = Table, 2 = Memory,
3 = Global`. -/
inductive ImportKind where
  | Function
  | Table
  | Memory
  | Global
deriving DecidableEq

/-- One entry of the import section, in file order: the module namespace
string (`import.module()` in the source), the field/symbol string
(`import.field()`), and the kind tag. -/
structure ImportRecord where
  module : String
  field : String
  kind : ImportKind
deriving DecidableEq

/-- The capability buckets of the summary, as enumerated by the spec. -/
inductive CapabilityBucket where
  | FileSystem
  | Environment
  | Process
  | Network
  | UnknownWasiSymbol
  | UnknownNamespace
deriving DecidableEq

/-! ## Classifier, translated from `src/main.rs`

`WasiAssumptions.add` mirrors the `match name` in lines 56–95 of the source:
each multi-pattern match arm becomes membership in the literal list of that
arm's string patterns, tested in the source's arm order. -/

/-- The symbols of the `environment` match arm (source lines 58–59). -/
def envSymbols : List String :=
  ["args_get", "args_sizes_get", "clock_res_get", "clock_time_get",
   "random_get", "environ_get", "environ_sizes_get"]

/-- The symbols of the `file_system` match arm (source lines 60–90). -/
def fsSymbols : List String :=
  ["fd_advise", "fd_close", "fd_datasync", "fd_fdstat_get",
   "fd_fdstat_set_flags", "fd_fdstat_set_rights", "fd_filestat_get",
   "fd_filestat_set_size", "fd_filestat_set_times", "fd_pread",
   "fd_prestat_get", "fd_prestat_dir_name", "fd_pwrite", "fd_read",
   "fd_readdir", "fd_renumber", "fd_seek", "fd_sync", "fd_tell", "fd_write",
   "path_create_directory", "path_filestat_get", "path_filestat_set_times",
   "path_link", "path_open", "path_readlink", "path_remove_directory",
   "path_rename", "path_symlink", "path_unlink_file", "poll_oneoff"]

/-- The symbols of the `process` match arm (source line 91). -/
def processSymbols : List String := ["proc_exit", "proc_raise", "sched_yield"]

/-- The symbols of the `network` match arm (source line 92). -/
def networkSymbols : List String := ["sock_recv", "sock_send", "sock_shutdown"]

/-- The per-bucket symbol lists of the WASI assumptions, mirroring
`struct WasiAssumptions` (the `Vec<&str>` fields become `List String`). -/
structure WasiAssumptions where
  file_system : List String
  environment : List String
  process : List String
  network : List String
  unknown : List String
deriving DecidableEq

/-- Constructor `WasiAssumptions::new`. -/
def WasiAssumptions.new : WasiAssumptions := ⟨[], [], [], [], []⟩

/-- Method `WasiAssumptions::add`: the `match name` over the fixed symbol lists;
`Vec::push` appends at the end. -/
def WasiAssumptions.add (w : WasiAssumptions) (name : String) : WasiAssumptions :=
  if name ∈ envSymbols then { w with environment := w.environment ++ [name] }
  else if name ∈ fsSymbols then { w with file_system := w.file_system ++ [name] }
  else if name ∈ processSymbols then { w with process := w.process ++ [name] }
  else if name ∈ networkSymbols then { w with network := w.network ++ [name] }
  else { w with unknown := w.unknown ++ [name] }

/-- Method `WasiAssumptions::count`: the sum of all five bucket lengths, in the
source's order of addition. -/
def WasiAssumptions.count (w : WasiAssumptions) : Nat :=
  w.file_system.length + w.process.length + w.environment.length +
    w.network.length + w.unknown.length

/-- Struct `Assumptions`: the WASI sub-summary plus the flat list of
non-WASI ("unknown") imports. -/
structure Assumptions where
  wasi : WasiAssumptions
  unknown : List String
deriving DecidableEq

/-- Constructor `Assumptions::new`. -/
def Assumptions.new : Assumptions := ⟨WasiAssumptions.new, []⟩

/-- Method `Assumptions::add_wasi`. -/
def Assumptions.add_wasi (a : Assumptions) (name : String) : Assumptions :=
  { a with wasi := a.wasi.add name }

/-- Method `Assumptions::add_unknown`. -/
def Assumptions.add_unknown (a : Assumptions) (name : String) : Assumptions :=
  { a with unknown := a.unknown ++ [name] }

/-- Method `Assumptions::count`. -/
def Assumptions.count (a : Assumptions) : Nat :=
  a.unknown.length + a.wasi.count

/-- One iteration of the loop in `main` (source lines 27–32): dispatch on
`import.module()` being `"wasi_unstable"`. -/
def classifyStep (a : Assumptions) (r : ImportRecord) : Assumptions :=
  if r.module = "wasi_unstable" then a.add_wasi r.field
  else a.add_unknown r.field

/-- The whole classification loop of `main` over the decoded entries. -/
def classify (records : List ImportRecord) : Assumptions :=
  records.foldl classifyStep Assumptions.new

/-! ## The spec's fixed classification table (§6)

A second rendering of the symbol → bucket mapping, written from the table of
§6 of the specification, for comparison against the source's match arms. -/

/-- Row Environment of the table in spec section 6. -/
def specEnvRow : List String :=
  ["args_get", "args_sizes_get", "clock_res_get", "clock_time_get",
   "random_get", "environ_get", "environ_sizes_get"]

/-- Row FileSystem of the table in spec section 6. -/
def specFsRow : List String :=
  ["fd_advise", "fd_close", "fd_datasync", "fd_fdstat_get",
   "fd_fdstat_set_flags", "fd_fdstat_set_rights", "fd_filestat_get",
   "fd_filestat_set_size", "fd_filestat_set_times", "fd_pread",
   "fd_prestat_get", "fd_prestat_dir_name", "fd_pwrite", "fd_read",
   "fd_readdir", "fd_renumber", "fd_seek", "fd_sync", "fd_tell", "fd_write",
   "path_create_directory", "path_filestat_get", "path_filestat_set_times",
   "path_link", "path_open", "path_readlink", "path_remove_directory",
   "path_rename", "path_symlink", "path_unlink_file", "poll_oneoff"]

/-- Row Process of the table in spec section 6. -/
def specProcessRow : List String := ["proc_exit", "proc_raise", "sched_yield"]

/-- Row Network of the table in spec section 6. -/
def specNetworkRow : List String := ["sock_recv", "sock_send", "sock_shutdown"]

/-- The bucket the section-6 table assigns to a `wasi_unstable` symbol; any symbol
in no row goes to `UnknownWasiSymbol`. -/
def specWasiBucket (sym : String) : CapabilityBucket :=
  if sym ∈ specEnvRow then .Environment
  else if sym ∈ specFsRow then .FileSystem
  else if sym ∈ specProcessRow then .Process
  else if sym ∈ specNetworkRow then .Network
  else .UnknownWasiSymbol

/-! ## Reporter, translated from `fn report` (source lines 131–202)

Each `println!` becomes one element of a list of output lines; `{}` holes are
filled by string concatenation, `\t` indentation is kept literally. -/

/-- Helper `fn correct_to_be_form`. -/
def correct_to_be_form (count : Nat) : String :=
  if count = 1 then "is" else "are"

/-- Helper `fn optional_s`. -/
def optional_s (count : Nat) : String :=
  if count = 1 then "" else "s"

/-- The `types` vector built in `report` (source lines 150–159): pushed for
non-empty `file_system`, `environment` and `process` buckets, in that order. -/
def reportTypes (wasi : WasiAssumptions) : List String :=
  (if wasi.file_system.length > 0 then ["file system"] else []) ++
    (if wasi.environment.length > 0 then ["environment"] else []) ++
      (if wasi.process.length > 0 then ["process"] else [])

/-- The verbose per-bucket listings of `report` (source lines 161–180). -/
def reportVerboseLines (wasi : WasiAssumptions) : List String :=
  (if wasi.file_system.length > 0 then
    "\tFile system calls:" :: wasi.file_system.map (fun c => "\t\t" ++ c)
   else []) ++
    (if wasi.environment.length > 0 then
      "\tEnivronent system calls:" :: wasi.environment.map (fun c => "\t\t" ++ c)
     else []) ++
      (if wasi.process.length > 0 then
        "\tProcess system calls:" :: wasi.process.map (fun c => "\t\t" ++ c)
       else [])

/-- Function `fn report`, as the ordered list of printed lines. -/
def report (assumptions : Assumptions) (verbose : Bool) : List String :=
  let total_count := assumptions.count
  let wasi := assumptions.wasi
  let wasi_count := wasi.count
  let headLine :=
    "There " ++ correct_to_be_form total_count ++ " " ++ toString total_count ++
      " total external API call" ++ optional_s total_count ++ "."
  let wasiLines :=
    if wasi_count > 0 then
      ["This binary is expecting a WASI compliant runtime.",
       "\tThe binary uses " ++ toString wasi_count ++ " WASI call" ++
         optional_s wasi_count,
       "\tThe following system resource types are used:",
       "\t\t" ++ String.intercalate (", ") (reportTypes wasi)] ++
        (if verbose then reportVerboseLines wasi else []) ++
          (if wasi.unknown.length > 0 then
            ("There " ++ correct_to_be_form wasi.unknown.length ++ " " ++
              toString wasi.unknown.length ++ " unknown wasi sys call" ++
                optional_s wasi.unknown.length ++ ":") ::
              wasi.unknown.map (fun c => "\t" ++ c)
           else [])
    else []
  let unknownLines :=
    if assumptions.unknown.length > 0 then
      "Unknown imports:" :: assumptions.unknown.map (fun u => "\t" ++ u)
    else []
  headLine :: (wasiLines ++ unknownLines)

/-! ## Module decoder

Modelled from the spec: in the source, decoding is performed by the external
`parity_wasm` crate (`deserialize_buffer::<Module>` followed by
`module.import_section()`), whose code is not part of this repository. The
definitions below follow the algorithm of spec section 4.1 word by word:
8-byte header validation, generic `(id, LEB128 byte-length)` section framing
with skip-by-length, and the import-section body of length-prefixed UTF-8
names, a kind tag in `0..=3`, and a kind-specific payload consumed only
far enough to advance the cursor. Bytes are modelled as `List Nat`; the
cursor is the still-unread suffix of the byte list. -/

/-- The decode-error taxonomy of spec section 7. -/
inductive DecodeError where
  | BadHeader
  | TruncatedSection
  | UnexpectedEndOfInput
  | SectionLengthMismatch
  | InvalidText
  | UnknownImportKind
deriving DecidableEq

/-- Error-propagating sequencing of two decoding steps, the analogue of
Rust's question-mark operator on `Result`. -/
def eBind {α β : Type} (x : Except DecodeError α)
    (k : α → Except DecodeError β) : Except DecodeError β :=
  match x with
  | .error e => .error e
  | .ok a => k a

deriving instance DecidableEq for Except

/-- Modelled from the spec: read one byte, failing on an empty buffer. -/
def readByte : List Nat → Except DecodeError (Nat × List Nat)
  | [] => .error .UnexpectedEndOfInput
  | b :: rest => .ok (b, rest)

/-- Modelled from the spec: read one unsigned LEB128 integer (7 data bits per
byte, high bit = continuation, least-significant group first; minimality not
enforced). -/
def readLEB : List Nat → Except DecodeError (Nat × List Nat)
  | [] => .error .UnexpectedEndOfInput
  | b :: rest =>
    if b < 128 then .ok (b, rest)
    else eBind (readLEB rest) fun vr => .ok (b % 128 + 128 * vr.1, vr.2)

/-- Modelled from the spec: decode a byte list as UTF-8 text (rejecting
overlong forms, surrogates, code points past U+10FFFF, stray or missing
continuation bytes), or `none` when the bytes are not valid UTF-8. -/
def utf8Chars : List Nat → Option (List Char)
  | [] => some []
  | b :: bs =>
    if b < 128 then
      match utf8Chars bs with
      | some cs => some (Char.ofNat b :: cs)
      | none => none
    else if b < 194 then none
    else if b < 224 then
      match bs with
      | b1 :: bs1 =>
        if 128 ≤ b1 ∧ b1 < 192 then
          match utf8Chars bs1 with
          | some cs => some (Char.ofNat ((b - 192) * 64 + (b1 - 128)) :: cs)
          | none => none
        else none
      | [] => none
    else if b < 240 then
      match bs with
      | b1 :: b2 :: bs2 =>
        if 128 ≤ b1 ∧ b1 < 192 ∧ 128 ≤ b2 ∧ b2 < 192 then
          if 2048 ≤ (b - 224) * 4096 + (b1 - 128) * 64 + (b2 - 128) ∧
              ((b - 224) * 4096 + (b1 - 128) * 64 + (b2 - 128) < 55296 ∨
                57344 ≤ (b - 224) * 4096 + (b1 - 128) * 64 + (b2 - 128)) then
            match utf8Chars bs2 with
            | some cs =>
              some (Char.ofNat ((b - 224) * 4096 + (b1 - 128) * 64 + (b2 - 128)) :: cs)
            | none => none
          else none
        else none
      | _ => none
    else if b < 245 then
      match bs with
      | b1 :: b2 :: b3 :: bs3 =>
        if 128 ≤ b1 ∧ b1 < 192 ∧ 128 ≤ b2 ∧ b2 < 192 ∧ 128 ≤ b3 ∧ b3 < 192 then
          if 65536 ≤ (b - 240) * 262144 + (b1 - 128) * 4096 + (b2 - 128) * 64 + (b3 - 128) ∧
              (b - 240) * 262144 + (b1 - 128) * 4096 + (b2 - 128) * 64 + (b3 - 128) < 1114112 then
            match utf8Chars bs3 with
            | some cs =>
              some (Char.ofNat
                ((b - 240) * 262144 + (b1 - 128) * 4096 + (b2 - 128) * 64 + (b3 - 128)) :: cs)
            | none => none
          else none
        else none
      | _ => none
    else none

/-- Modelled from the spec: read a length-prefixed UTF-8 string (LEB128
byte-length, then exactly that many bytes decoded as UTF-8; invalid UTF-8
gives `InvalidText`, a length past the buffer end `UnexpectedEndOfInput`). -/
def readName (bs : List Nat) : Except DecodeError (String × List Nat) :=
  eBind (readLEB bs) fun lr =>
    if lr.1 ≤ lr.2.length then
      match utf8Chars (lr.2.take lr.1) with
      | some cs => .ok (String.mk cs, lr.2.drop lr.1)
      | none => .error .InvalidText
    else .error .UnexpectedEndOfInput

/-- Modelled from the spec: a limits structure — one flag byte, a LEB128
minimum, and a LEB128 maximum only when the flag bit is set. Only the
advanced cursor is retained. -/
def readLimits (bs : List Nat) : Except DecodeError (List Nat) :=
  eBind (readByte bs) fun fr =>
    eBind (readLEB fr.2) fun mr =>
      if fr.1 % 2 = 1 then
        eBind (readLEB mr.2) fun xr => .ok xr.2
      else .ok mr.2

/-- Modelled from the spec: one import entry — namespace string, symbol
string, kind tag (`0..=3`, otherwise `UnknownImportKind`), and the
kind-specific payload consumed only to advance the cursor. -/
def readEntry (bs : List Nat) : Except DecodeError (ImportRecord × List Nat) :=
  eBind (readName bs) fun mr =>
    eBind (readName mr.2) fun fr =>
      eBind (readByte fr.2) fun tr =>
        if tr.1 = 0 then
          eBind (readLEB tr.2) fun xr => .ok (⟨mr.1, fr.1, .Function⟩, xr.2)
        else if tr.1 = 1 then
          eBind (readByte tr.2) fun er =>
            eBind (readLimits er.2) fun r5 => .ok (⟨mr.1, fr.1, .Table⟩, r5)
        else if tr.1 = 2 then
          eBind (readLimits tr.2) fun r4 => .ok (⟨mr.1, fr.1, .Memory⟩, r4)
        else if tr.1 = 3 then
          eBind (readByte tr.2) fun vr =>
            eBind (readByte vr.2) fun br => .ok (⟨mr.1, fr.1, .Global⟩, br.2)
        else .error .UnknownImportKind

/-- Modelled from the spec: read `n` import entries in order. -/
def readEntries : Nat → List Nat → Except DecodeError (List ImportRecord × List Nat)
  | 0, bs => .ok ([], bs)
  | n + 1, bs =>
    eBind (readEntry bs) fun rr =>
      eBind (readEntries n rr.2) fun sr => .ok (rr.1 :: sr.1, sr.2)

/-- Modelled from the spec: the import-section body — a LEB128 entry count
followed by that many entries. -/
def decodeImportBody (bs : List Nat) : Except DecodeError (List ImportRecord × List Nat) :=
  eBind (readLEB bs) fun nr => readEntries nr.1 nr.2

/-- Modelled from the spec: the top-level section loop — until end of buffer,
read a section id byte and a LEB128 byte-length `L`; decode the body of
an import section (id 2) and check exactly `L` bytes were consumed, skip
any other section by advancing `L` bytes (`TruncatedSection` when `L` passes the
buffer end). The fuel argument only bounds the number of iterations; the
top-level call passes the buffer length, which is never exhausted because
every iteration consumes at least the id byte. -/
def decodeSections : Nat → List Nat → Except DecodeError (List ImportRecord)
  | _, [] => .ok []
  | 0, _ :: _ => .error .UnexpectedEndOfInput
  | fuel + 1, id :: rest =>
    eBind (readLEB rest) fun lr =>
      if id = 2 then
        eBind (decodeImportBody lr.2) fun br =>
          if lr.2.length - br.2.length = lr.1 then
            eBind (decodeSections fuel br.2) fun more => .ok (br.1 ++ more)
          else .error .SectionLengthMismatch
      else
        if lr.1 ≤ lr.2.length then decodeSections fuel (lr.2.drop lr.1)
        else .error .TruncatedSection

/-- The 8-byte wasm header: magic `\0asm` then version 1, little-endian. -/
def wasmHeader : List Nat := [0, 97, 115, 109, 1, 0, 0, 0]

/-- Modelled from the spec: `decode_imports` — validate the 8-byte header
(`BadHeader` on mismatch or fewer than 8 bytes), then run the section loop
over the remaining bytes. -/
def decode_imports (bs : List Nat) : Except DecodeError (List ImportRecord) :=
  if bs.take 8 = wasmHeader then decodeSections (bs.drop 8).length (bs.drop 8)
  else .error .BadHeader

/-- The whole pipeline of `main` on an in-memory buffer: decode, classify,
report. A decode failure aborts everything (the source's `.unwrap()` on
`deserialize_buffer` terminates the process before any classification). -/
def run (bs : List Nat) (verbose : Bool) : Except DecodeError (List String) :=
  eBind (decode_imports bs) fun recs => .ok (report (classify recs) verbose)

/-! ## Encoders used to state the decoder theorems -/

/-- Minimal LEB128 encoding of `n`, with explicit fuel (the value itself
bounds the number of 7-bit groups). -/
def lebEncodeF : Nat → Nat → List Nat
  | 0, n => [n % 128]
  | fuel + 1, n =>
    if n < 128 then [n] else (n % 128 + 128) :: lebEncodeF fuel (n / 128)

/-- Minimal LEB128 encoding of `n`. -/
def lebEncode (n : Nat) : List Nat := lebEncodeF n n

/-- A generic section given by its id byte and raw payload bytes. -/
structure Sec where
  id : Nat
  payload : List Nat

/-- The encoded bytes of a generic section: id, LEB128 payload length,
payload. -/
def secBytes (s : Sec) : List Nat :=
  s.id :: (lebEncode s.payload.length ++ s.payload)

/-- The concatenated encoding of a list of sections. -/
def secsBytes (l : List Sec) : List Nat :=
  l.foldr (fun s acc => secBytes s ++ acc) []

/-- The encoded bytes of an import section with the given body bytes. -/
def impBlock (body : List Nat) : List Nat :=
  2 :: (lebEncode body.length ++ body)

/-! ## Classifier lemmas -/

/-- Membership test for the FileSystem bucket. -/
def inFS (r : ImportRecord) : Bool :=
  decide (r.module = "wasi_unstable" ∧ r.field ∈ fsSymbols)

/-- Membership test for the Environment bucket. -/
def inEnv (r : ImportRecord) : Bool :=
  decide (r.module = "wasi_unstable" ∧ r.field ∈ envSymbols)

/-- Membership test for the Process bucket. -/
def inProc (r : ImportRecord) : Bool :=
  decide (r.module = "wasi_unstable" ∧ r.field ∈ processSymbols)

/-- Membership test for the Network bucket. -/
def inNet (r : ImportRecord) : Bool :=
  decide (r.module = "wasi_unstable" ∧ r.field ∈ networkSymbols)

/-- Membership test for the UnknownWasiSymbol bucket. -/
def inWasiUnknown (r : ImportRecord) : Bool :=
  decide (r.module = "wasi_unstable" ∧ r.field ∉ envSymbols ∧
    r.field ∉ fsSymbols ∧ r.field ∉ processSymbols ∧ r.field ∉ networkSymbols)

/-- Membership test for the UnknownNamespace bucket. -/
def inNsUnknown (r : ImportRecord) : Bool :=
  decide (r.module ≠ "wasi_unstable")

theorem env_fs_disjoint : ∀ x ∈ envSymbols, x ∉ fsSymbols := by decide

theorem env_process_disjoint : ∀ x ∈ envSymbols, x ∉ processSymbols := by decide

theorem env_network_disjoint : ∀ x ∈ envSymbols, x ∉ networkSymbols := by decide

theorem fs_process_disjoint : ∀ x ∈ fsSymbols, x ∉ processSymbols := by decide

theorem fs_network_disjoint : ∀ x ∈ fsSymbols, x ∉ networkSymbols := by decide

theorem process_network_disjoint : ∀ x ∈ processSymbols, x ∉ networkSymbols := by decide

theorem classifyStep_fs (a : Assumptions) (r : ImportRecord) :
    (classifyStep a r).wasi.file_system =
      a.wasi.file_system ++ (if inFS r then [r.field] else []) := by
  have hef := env_fs_disjoint r.field
  unfold classifyStep Assumptions.add_wasi Assumptions.add_unknown
    WasiAssumptions.add inFS
  split_ifs with h1 h2 h3 h4 h5 <;> simp_all

theorem classifyStep_env (a : Assumptions) (r : ImportRecord) :
    (classifyStep a r).wasi.environment =
      a.wasi.environment ++ (if inEnv r then [r.field] else []) := by
  unfold classifyStep Assumptions.add_wasi Assumptions.add_unknown
    WasiAssumptions.add inEnv
  split_ifs with h1 h2 h3 h4 h5 <;> simp_all

theorem classifyStep_process (a : Assumptions) (r : ImportRecord) :
    (classifyStep a r).wasi.process =
      a.wasi.process ++ (if inProc r then [r.field] else []) := by
  have hep := env_process_disjoint r.field
  have hfp := fs_process_disjoint r.field
  unfold classifyStep Assumptions.add_wasi Assumptions.add_unknown
    WasiAssumptions.add inProc
  split_ifs with h1 h2 h3 h4 h5 <;> simp_all

theorem classifyStep_network (a : Assumptions) (r : ImportRecord) :
    (classifyStep a r).wasi.network =
      a.wasi.network ++ (if inNet r then [r.field] else []) := by
  have hen := env_network_disjoint r.field
  have hfn := fs_network_disjoint r.field
  have hpn := process_network_disjoint r.field
  unfold classifyStep Assumptions.add_wasi Assumptions.add_unknown
    WasiAssumptions.add inNet
  split_ifs with h1 h2 h3 h4 h5 <;> simp_all

theorem classifyStep_wasi_unknown (a : Assumptions) (r : ImportRecord) :
    (classifyStep a r).wasi.unknown =
      a.wasi.unknown ++ (if inWasiUnknown r then [r.field] else []) := by
  unfold classifyStep Assumptions.add_wasi Assumptions.add_unknown
    WasiAssumptions.add inWasiUnknown
  split_ifs with h1 h2 h3 h4 h5 <;> simp_all

theorem classifyStep_ns_unknown (a : Assumptions) (r : ImportRecord) :
    (classifyStep a r).unknown =
      a.unknown ++ (if inNsUnknown r then [r.field] else []) := by
  unfold classifyStep Assumptions.add_wasi Assumptions.add_unknown
    WasiAssumptions.add inNsUnknown
  split_ifs with h1 h2 h3 h4 h5 <;> simp_all

theorem classifyStep_count (a : Assumptions) (r : ImportRecord) :
    (classifyStep a r).count = a.count + 1 := by
  unfold classifyStep Assumptions.add_wasi Assumptions.add_unknown
    Assumptions.count WasiAssumptions.count WasiAssumptions.add
  split_ifs <;> simp [List.length_append] <;> omega

theorem classify_go_fs (recs : List ImportRecord) : ∀ a : Assumptions,
    (recs.foldl classifyStep a).wasi.file_system =
      a.wasi.file_system ++ (recs.filter inFS).map ImportRecord.field := by
  induction recs with
  | nil => intro a; simp
  | cons r rs ih =>
    intro a
    rw [List.foldl_cons, ih, classifyStep_fs]
    by_cases h : inFS r <;> simp [List.filter_cons, h]

theorem classify_go_env (recs : List ImportRecord) : ∀ a : Assumptions,
    (recs.foldl classifyStep a).wasi.environment =
      a.wasi.environment ++ (recs.filter inEnv).map ImportRecord.field := by
  induction recs with
  | nil => intro a; simp
  | cons r rs ih =>
    intro a
    rw [List.foldl_cons, ih, classifyStep_env]
    by_cases h : inEnv r <;> simp [List.filter_cons, h]

theorem classify_go_process (recs : List ImportRecord) : ∀ a : Assumptions,
    (recs.foldl classifyStep a).wasi.process =
      a.wasi.process ++ (recs.filter inProc).map ImportRecord.field := by
  induction recs with
  | nil => intro a; simp
  | cons r rs ih =>
    intro a
    rw [List.foldl_cons, ih, classifyStep_process]
    by_cases h : inProc r <;> simp [List.filter_cons, h]

theorem classify_go_network (recs : List ImportRecord) : ∀ a : Assumptions,
    (recs.foldl classifyStep a).wasi.network =
      a.wasi.network ++ (recs.filter inNet).map ImportRecord.field := by
  induction recs with
  | nil => intro a; simp
  | cons r rs ih =>
    intro a
    rw [List.foldl_cons, ih, classifyStep_network]
    by_cases h : inNet r <;> simp [List.filter_cons, h]

theorem classify_go_wasi_unknown (recs : List ImportRecord) : ∀ a : Assumptions,
    (recs.foldl classifyStep a).wasi.unknown =
      a.wasi.unknown ++ (recs.filter inWasiUnknown).map ImportRecord.field := by
  induction recs with
  | nil => intro a; simp
  | cons r rs ih =>
    intro a
    rw [List.foldl_cons, ih, classifyStep_wasi_unknown]
    by_cases h : inWasiUnknown r <;> simp [List.filter_cons, h]

theorem classify_go_ns_unknown (recs : List ImportRecord) : ∀ a : Assumptions,
    (recs.foldl classifyStep a).unknown =
      a.unknown ++ (recs.filter inNsUnknown).map ImportRecord.field := by
  induction recs with
  | nil => intro a; simp
  | cons r rs ih =>
    intro a
    rw [List.foldl_cons, ih, classifyStep_ns_unknown]
    by_cases h : inNsUnknown r <;> simp [List.filter_cons, h]

theorem classify_go_count (recs : List ImportRecord) : ∀ a : Assumptions,
    (recs.foldl classifyStep a).count = a.count + recs.length := by
  induction recs with
  | nil => intro a; simp
  | cons r rs ih =>
    intro a
    rw [List.foldl_cons, ih, classifyStep_count]
    simp [Nat.add_assoc, Nat.add_comm 1 rs.length]

theorem classify_count (recs : List ImportRecord) :
    (classify recs).count = recs.length := by
  rw [classify, classify_go_count]
  simp [Assumptions.new, WasiAssumptions.new, Assumptions.count,
    WasiAssumptions.count]

/-! ## Claim theorems: classifier -/

/-- C1: classification is total and exclusive — for every decoded sequence
of import records, the total count reported by the summary equals the number
of input records, and that total is exactly the sum of the lengths of all six
capability buckets (no loss, no duplication). -/
theorem c1_classification_total (recs : List ImportRecord) :
    (classify recs).count = recs.length ∧
    (classify recs).wasi.file_system.length +
      (classify recs).wasi.environment.length +
      (classify recs).wasi.process.length +
      (classify recs).wasi.network.length +
      (classify recs).wasi.unknown.length +
      (classify recs).unknown.length = recs.length := by
  have h := classify_count recs
  refine ⟨h, ?_⟩
  rw [Assumptions.count, WasiAssumptions.count] at h
  omega

/-- C2: every `wasi_unstable` record is assigned exactly the bucket of the
fixed section-6 membership table — `WasiAssumptions.add` appends the symbol
to the bucket `specWasiBucket` names and touches no other bucket — and the
symbol `sock_accept`, absent from the table, lands in the UnknownWasiSymbol
bucket and in no other bucket. -/
theorem c2_wasi_table_refinement :
    (∀ (w : WasiAssumptions) (sym : String),
      ((w.add sym).environment =
        w.environment ++ (if specWasiBucket sym = .Environment then [sym] else [])) ∧
      ((w.add sym).file_system =
        w.file_system ++ (if specWasiBucket sym = .FileSystem then [sym] else [])) ∧
      ((w.add sym).process =
        w.process ++ (if specWasiBucket sym = .Process then [sym] else [])) ∧
      ((w.add sym).network =
        w.network ++ (if specWasiBucket sym = .Network then [sym] else [])) ∧
      ((w.add sym).unknown =
        w.unknown ++ (if specWasiBucket sym = .UnknownWasiSymbol then [sym] else []))) ∧
    specWasiBucket ("sock_accept") = .UnknownWasiSymbol ∧
    classify [⟨"wasi_unstable", "sock_accept", .Function⟩] =
      ⟨⟨[], [], [], [], ["sock_accept"]⟩, []⟩ := by
  refine ⟨?_, by decide, by decide⟩
  intro w sym
  unfold WasiAssumptions.add specWasiBucket envSymbols fsSymbols
    processSymbols networkSymbols specEnvRow specFsRow specProcessRow
    specNetworkRow
  split_ifs <;> simp_all

/-- C3 counterexample: the record `("env","custom_log",Function)` is placed
in the flat unknown-imports bucket under the identifier `"custom_log"` — the
symbol string — not under `"env"` as the claim asserts. -/
theorem c3_counterexample :
    (classify [⟨"env", "custom_log", .Function⟩]).unknown = ["custom_log"] ∧
    (classify [⟨"env", "custom_log", .Function⟩]).unknown ≠ ["env"] := by
  decide

/-- C3 amended: every record whose namespace is not `wasi_unstable` is
assigned to the flat unknown-imports (UnknownNamespace) bucket regardless of
its symbol, and the identifier recorded for it is the symbol (field) string,
not the namespace string; `("env","custom_log",Function)` yields
`unknown = ["custom_log"]`. -/
theorem c3_unknown_namespace_records_symbol (a : Assumptions)
    (r : ImportRecord) (h : r.module ≠ "wasi_unstable") :
    classifyStep a r = { a with unknown := a.unknown ++ [r.field] } := by
  unfold classifyStep Assumptions.add_unknown
  simp [h]

/-- C3 witness: the amended statement applied to the concrete record
`("env","custom_log",Function)` on the empty summary. -/
theorem c3_witness :
    (("env" : String) ≠ "wasi_unstable") ∧
    classifyStep Assumptions.new ⟨"env", "custom_log", .Function⟩ =
      { Assumptions.new with unknown := ["custom_log"] } := by
  refine ⟨by decide, ?_⟩
  rw [c3_unknown_namespace_records_symbol Assumptions.new
    ⟨"env", "custom_log", .Function⟩ (by decide)]
  simp [Assumptions.new, WasiAssumptions.new]

/-- C7: the classifier is a pure, total function that never fails — every
single record, however exotic its namespace and symbol strings, lands in
exactly one bucket (each step grows the total count by exactly one), and at
worst it lands in the UnknownNamespace bucket (namespace not
`wasi_unstable`) or the UnknownWasiSymbol bucket (`wasi_unstable` symbol
outside the fixed table). -/
theorem c7_classifier_total_function :
    (∀ (a : Assumptions) (r : ImportRecord),
      (classifyStep a r).count = a.count + 1) ∧
    (∀ (a : Assumptions) (r : ImportRecord), r.module ≠ "wasi_unstable" →
      (classifyStep a r).unknown = a.unknown ++ [r.field]) ∧
    (∀ (a : Assumptions) (r : ImportRecord), r.module = "wasi_unstable" →
      r.field ∉ envSymbols → r.field ∉ fsSymbols →
      r.field ∉ processSymbols → r.field ∉ networkSymbols →
      (classifyStep a r).wasi.unknown = a.wasi.unknown ++ [r.field]) := by
  refine ⟨classifyStep_count, ?_, ?_⟩
  · intro a r h
    unfold classifyStep Assumptions.add_unknown
    simp [h]
  · intro a r h h1 h2 h3 h4
    have := classifyStep_wasi_unknown a r
    rw [this]
    simp [inWasiUnknown, h, h1, h2, h3, h4]

/-- C7 witness: the three parts of the totality statement applied to a
concrete exotic record `("mystery_ns","mystery_fn")` and to the concrete
unknown WASI symbol `("wasi_unstable","sock_accept")`. -/
theorem c7_witness :
    (classifyStep Assumptions.new ⟨"mystery_ns", "mystery_fn", .Global⟩).count =
      Assumptions.new.count + 1 ∧
    (classifyStep Assumptions.new ⟨"mystery_ns", "mystery_fn", .Global⟩).unknown =
      Assumptions.new.unknown ++ ["mystery_fn"] ∧
    (classifyStep Assumptions.new ⟨"wasi_unstable", "sock_accept", .Function⟩).wasi.unknown =
      Assumptions.new.wasi.unknown ++ ["sock_accept"] := by
  refine ⟨c7_classifier_total_function.1 Assumptions.new _, ?_, ?_⟩
  · exact c7_classifier_total_function.2.1 Assumptions.new
      ⟨"mystery_ns", "mystery_fn", .Global⟩ (by decide)
  · exact c7_classifier_total_function.2.2 Assumptions.new
      ⟨"wasi_unstable", "sock_accept", .Function⟩ (by decide) (by decide)
      (by decide) (by decide) (by decide)

/-- C9: the pipeline is deterministic — running it twice on the same byte
sequence gives identical results — and within every bucket of the summary
the entries are exactly the matching records of the input in input (file)
order, as a filter of the record sequence. -/
theorem c9_determinism_and_order :
    (∀ (bs : List Nat) (v : Bool), run bs v = run bs v) ∧
    (∀ recs : List ImportRecord,
      (classify recs).wasi.file_system =
        (recs.filter inFS).map ImportRecord.field ∧
      (classify recs).wasi.environment =
        (recs.filter inEnv).map ImportRecord.field ∧
      (classify recs).wasi.process =
        (recs.filter inProc).map ImportRecord.field ∧
      (classify recs).wasi.network =
        (recs.filter inNet).map ImportRecord.field ∧
      (classify recs).wasi.unknown =
        (recs.filter inWasiUnknown).map ImportRecord.field ∧
      (classify recs).unknown =
        (recs.filter inNsUnknown).map ImportRecord.field) := by
  refine ⟨fun bs v => rfl, fun recs => ?_⟩
  refine ⟨?_, ?_, ?_, ?_, ?_, ?_⟩
  · rw [classify, classify_go_fs]; rfl
  · rw [classify, classify_go_env]; rfl
  · rw [classify, classify_go_process]; rfl
  · rw [classify, classify_go_network]; rfl
  · rw [classify, classify_go_wasi_unknown]; rfl
  · rw [classify, classify_go_ns_unknown]; rfl

/-! ## Claim theorems: reporter -/

/-- C10: the report omits the Network bucket entirely — the printed output is
unchanged when the network bucket's contents are replaced by any list of the
same length (so its symbols are never enumerated, in verbose mode or
otherwise), the string `"network"` is never in the resource-types list,
network symbols still count toward the WASI call total, and when network
symbols are the only classified WASI imports the resource-types header is
printed followed by an empty list line. -/
theorem c10_network_bucket_omitted :
    (∀ (a : Assumptions) (v : Bool) (l : List String),
      l.length = a.wasi.network.length →
      report { a with wasi := { a.wasi with network := l } } v = report a v) ∧
    (∀ w : WasiAssumptions, "network" ∉ reportTypes w) ∧
    (∀ w : WasiAssumptions, w.count = w.file_system.length + w.process.length +
      w.environment.length + w.network.length + w.unknown.length) ∧
    report (classify [⟨"wasi_unstable", "sock_recv", .Function⟩]) true =
      ["There is 1 total external API call.",
       "This binary is expecting a WASI compliant runtime.",
       "\tThe binary uses 1 WASI call",
       "\tThe following system resource types are used:",
       "\t\t"] := by
  refine ⟨?_, ?_, fun w => rfl, by decide⟩
  · intro a v l h
    simp [report, reportTypes, reportVerboseLines, Assumptions.count,
      WasiAssumptions.count, h]
  · intro w
    unfold reportTypes
    split_ifs <;> decide

/-- C10 witness: the network-invariance part applied concretely — replacing
the singleton network bucket `["sock_recv"]` by `["sock_send"]` leaves the
verbose report unchanged. -/
theorem c10_witness :
    ((["sock_send"] : List String).length =
      (Assumptions.mk ⟨[], [], [], ["sock_recv"], []⟩ []).wasi.network.length) ∧
    report { Assumptions.mk ⟨[], [], [], ["sock_recv"], []⟩ [] with
        wasi := { (Assumptions.mk ⟨[], [], [], ["sock_recv"], []⟩ []).wasi with
          network := ["sock_send"] } } true =
      report (Assumptions.mk ⟨[], [], [], ["sock_recv"], []⟩ []) true := by
  refine ⟨by decide, ?_⟩
  exact c10_network_bucket_omitted.1
    (Assumptions.mk ⟨[], [], [], ["sock_recv"], []⟩ []) true ["sock_send"]
    (by decide)


/-! ## Decoder reader lemmas -/

theorem eBind_ok {α β : Type} (x : Except DecodeError α)
    (k : α → Except DecodeError β) (b : β) :
    eBind x k = .ok b ↔ ∃ a, x = .ok a ∧ k a = .ok b := by
  cases x <;> simp [eBind]

theorem eBind_error {α β : Type} (x : Except DecodeError α)
    (k : α → Except DecodeError β) (e : DecodeError) :
    eBind x k = .error e ↔
      x = .error e ∨ ∃ a, x = .ok a ∧ k a = .error e := by
  cases x <;> simp [eBind]

theorem eBind_pure {α β : Type} (a : α) (k : α → Except DecodeError β) :
    eBind (.ok a) k = k a := rfl

theorem readLEB_length : ∀ (bs : List Nat) (v : Nat) (r : List Nat),
    readLEB bs = .ok (v, r) → r.length < bs.length := by
  intro bs
  induction bs with
  | nil => intro v r h; simp [readLEB] at h
  | cons b rest ih =>
    intro v r h
    rw [readLEB] at h
    split at h
    · simp only [Except.ok.injEq, Prod.mk.injEq] at h
      obtain ⟨rfl, rfl⟩ := h
      simp
    · rw [eBind_ok] at h
      obtain ⟨⟨v1, r1⟩, hm, hk⟩ := h
      simp only [Except.ok.injEq, Prod.mk.injEq] at hk
      obtain ⟨rfl, rfl⟩ := hk
      have := ih _ _ hm
      simp only [List.length_cons]
      omega

theorem readByte_length (bs : List Nat) (v : Nat) (r : List Nat)
    (h : readByte bs = .ok (v, r)) : r.length < bs.length := by
  cases bs with
  | nil => simp [readByte] at h
  | cons b rest =>
    simp only [readByte, Except.ok.injEq, Prod.mk.injEq] at h
    obtain ⟨rfl, rfl⟩ := h
    simp

theorem readName_length (bs : List Nat) (s : String) (r : List Nat)
    (h : readName bs = .ok (s, r)) : r.length < bs.length := by
  rw [readName, eBind_ok] at h
  obtain ⟨⟨len, r1⟩, hm, hk⟩ := h
  have h1 := readLEB_length bs len r1 hm
  dsimp only at hk
  split at hk
  · split at hk
    · simp only [Except.ok.injEq, Prod.mk.injEq] at hk
      obtain ⟨rfl, rfl⟩ := hk
      have h2 : (r1.drop len).length ≤ r1.length := by simp
      omega
    · simp at hk
  · simp at hk

theorem readLimits_length (bs : List Nat) (r : List Nat)
    (h : readLimits bs = .ok r) : r.length < bs.length := by
  rw [readLimits, eBind_ok] at h
  obtain ⟨⟨flag, r1⟩, hm, hk⟩ := h
  have h1 := readByte_length bs flag r1 hm
  dsimp only at hk
  rw [eBind_ok] at hk
  obtain ⟨⟨v2, r2⟩, hm2, hk2⟩ := hk
  have h2 := readLEB_length r1 v2 r2 hm2
  dsimp only at hk2
  split at hk2
  · rw [eBind_ok] at hk2
    obtain ⟨⟨v3, r3⟩, hm3, hk3⟩ := hk2
    have h3 := readLEB_length r2 v3 r3 hm3
    simp only [Except.ok.injEq] at hk3
    subst hk3
    omega
  · simp only [Except.ok.injEq] at hk2
    subst hk2
    omega

theorem readEntry_length (bs : List Nat) (x : ImportRecord) (r : List Nat)
    (h : readEntry bs = .ok (x, r)) : r.length < bs.length := by
  rw [readEntry, eBind_ok] at h
  obtain ⟨⟨m, r1⟩, hm, hk⟩ := h
  have h1 := readName_length bs m r1 hm
  dsimp only at hk
  rw [eBind_ok] at hk
  obtain ⟨⟨f, r2⟩, hm2, hk2⟩ := hk
  have h2 := readName_length r1 f r2 hm2
  dsimp only at hk2
  rw [eBind_ok] at hk2
  obtain ⟨⟨tag, r3⟩, hm3, hk3⟩ := hk2
  have h3 := readByte_length r2 tag r3 hm3
  dsimp only at hk3
  split at hk3
  · rw [eBind_ok] at hk3
    obtain ⟨⟨v4, r4⟩, hm4, hk4⟩ := hk3
    have h4 := readLEB_length r3 v4 r4 hm4
    simp only [Except.ok.injEq, Prod.mk.injEq] at hk4
    obtain ⟨rfl, rfl⟩ := hk4
    omega
  · split at hk3
    · rw [eBind_ok] at hk3
      obtain ⟨⟨v4, r4⟩, hm4, hk4⟩ := hk3
      have h4 := readByte_length r3 v4 r4 hm4
      dsimp only at hk4
      rw [eBind_ok] at hk4
      obtain ⟨r5, hm5, hk5⟩ := hk4
      have h5 := readLimits_length r4 r5 hm5
      simp only [Except.ok.injEq, Prod.mk.injEq] at hk5
      obtain ⟨rfl, rfl⟩ := hk5
      omega
    · split at hk3
      · rw [eBind_ok] at hk3
        obtain ⟨r4, hm4, hk4⟩ := hk3
        have h4 := readLimits_length r3 r4 hm4
        simp only [Except.ok.injEq, Prod.mk.injEq] at hk4
        obtain ⟨rfl, rfl⟩ := hk4
        omega
      · split at hk3
        · rw [eBind_ok] at hk3
          obtain ⟨⟨v4, r4⟩, hm4, hk4⟩ := hk3
          have h4 := readByte_length r3 v4 r4 hm4
          dsimp only at hk4
          rw [eBind_ok] at hk4
          obtain ⟨⟨v5, r5⟩, hm5, hk5⟩ := hk4
          have h5 := readByte_length r4 v5 r5 hm5
          simp only [Except.ok.injEq, Prod.mk.injEq] at hk5
          obtain ⟨rfl, rfl⟩ := hk5
          omega
        · simp at hk3

theorem readEntries_length : ∀ (n : Nat) (bs : List Nat)
    (rs : List ImportRecord) (r : List Nat),
    readEntries n bs = .ok (rs, r) → r.length ≤ bs.length := by
  intro n
  induction n with
  | zero =>
    intro bs rs r h
    simp only [readEntries, Except.ok.injEq, Prod.mk.injEq] at h
    obtain ⟨rfl, rfl⟩ := h
    exact Nat.le_refl _
  | succ n ih =>
    intro bs rs r h
    rw [readEntries, eBind_ok] at h
    obtain ⟨⟨x, rest⟩, hm, hk⟩ := h
    have h1 := readEntry_length bs x rest hm
    dsimp only at hk
    rw [eBind_ok] at hk
    obtain ⟨⟨rs2, rest2⟩, hm2, hk2⟩ := hk
    have h2 := ih rest rs2 rest2 hm2
    simp only [Except.ok.injEq, Prod.mk.injEq] at hk2
    obtain ⟨rfl, rfl⟩ := hk2
    omega

theorem decodeImportBody_length (bs : List Nat) (rs : List ImportRecord)
    (r : List Nat) (h : decodeImportBody bs = .ok (rs, r)) :
    r.length < bs.length := by
  rw [decodeImportBody, eBind_ok] at h
  obtain ⟨⟨n, r1⟩, hm, hk⟩ := h
  have h1 := readLEB_length bs n r1 hm
  have h2 := readEntries_length n r1 rs r hk
  omega

theorem decodeSections_mono : ∀ (n m : Nat) (bs : List Nat),
    bs.length ≤ n → bs.length ≤ m →
    decodeSections n bs = decodeSections m bs := by
  intro n
  induction n with
  | zero =>
    intro m bs h1 h2
    have hbs : bs = [] := List.length_eq_zero.mp (Nat.le_zero.mp h1)
    subst hbs
    cases m <;> rfl
  | succ n ih =>
    intro m bs h1 h2
    cases bs with
    | nil => cases m <;> rfl
    | cons id rest =>
      cases m with
      | zero => simp at h2
      | succ m =>
        rw [decodeSections, decodeSections]
        cases hm : readLEB rest with
        | error e => simp [eBind]
        | ok p =>
          obtain ⟨len, r1⟩ := p
          have hr1 := readLEB_length rest len r1 hm
          simp only [List.length_cons, Nat.succ_le_succ_iff] at h1 h2
          simp only [eBind]
          by_cases hid : id = 2
          · rw [if_pos hid, if_pos hid]
            cases hb : decodeImportBody r1 with
            | error e => simp [eBind]
            | ok q =>
              obtain ⟨recs, r2⟩ := q
              have hr2 := decodeImportBody_length r1 recs r2 hb
              simp only [eBind]
              by_cases hlen : r1.length - r2.length = len
              · rw [if_pos hlen, if_pos hlen]
                rw [ih m r2 (by omega) (by omega)]
              · rw [if_neg hlen, if_neg hlen]
          · rw [if_neg hid, if_neg hid]
            by_cases hlen : len ≤ r1.length
            · rw [if_pos hlen, if_pos hlen]
              exact ih m (r1.drop len) (by simp; omega) (by simp; omega)
            · rw [if_neg hlen, if_neg hlen]

theorem readByte_append (bs ext : List Nat) (v : Nat) (r : List Nat)
    (h : readByte bs = .ok (v, r)) :
    readByte (bs ++ ext) = .ok (v, r ++ ext) := by
  cases bs with
  | nil => simp [readByte] at h
  | cons b rest =>
    simp only [readByte, Except.ok.injEq, Prod.mk.injEq] at h
    obtain ⟨rfl, rfl⟩ := h
    simp [readByte]

theorem readLEB_append : ∀ (bs ext : List Nat) (v : Nat) (r : List Nat),
    readLEB bs = .ok (v, r) →
    readLEB (bs ++ ext) = .ok (v, r ++ ext) := by
  intro bs
  induction bs with
  | nil => intro ext v r h; simp [readLEB] at h
  | cons b rest ih =>
    intro ext v r h
    rw [readLEB] at h
    rw [List.cons_append, readLEB]
    split at h
    · simp only [Except.ok.injEq, Prod.mk.injEq] at h
      obtain ⟨rfl, rfl⟩ := h
      rename_i hb
      rw [if_pos hb]
    · rename_i hb
      rw [if_neg hb]
      rw [eBind_ok] at h
      obtain ⟨⟨v1, r1⟩, hm, hk⟩ := h
      simp only [Except.ok.injEq, Prod.mk.injEq] at hk
      obtain ⟨rfl, rfl⟩ := hk
      rw [eBind_ok]
      exact ⟨(v1, r1 ++ ext), ih ext v1 r1 hm, rfl⟩

theorem readName_append (bs ext : List Nat) (s : String) (r : List Nat)
    (h : readName bs = .ok (s, r)) :
    readName (bs ++ ext) = .ok (s, r ++ ext) := by
  rw [readName, eBind_ok] at h
  obtain ⟨⟨len, r1⟩, hm, hk⟩ := h
  dsimp only at hk
  split at hk
  · rename_i hle
    cases hu : utf8Chars (r1.take len) with
    | none => rw [hu] at hk; simp at hk
    | some cs =>
      rw [hu] at hk
      simp only [Except.ok.injEq, Prod.mk.injEq] at hk
      obtain ⟨rfl, rfl⟩ := hk
      rw [readName, eBind_ok]
      refine ⟨(len, r1 ++ ext), readLEB_append bs ext len r1 hm, ?_⟩
      dsimp only
      rw [if_pos (by simp; omega)]
      rw [List.take_append_of_le_length hle, hu,
        List.drop_append_of_le_length hle]
  · simp at hk

theorem readLimits_append (bs ext : List Nat) (r : List Nat)
    (h : readLimits bs = .ok r) :
    readLimits (bs ++ ext) = .ok (r ++ ext) := by
  rw [readLimits, eBind_ok] at h
  obtain ⟨⟨flag, r1⟩, hm, hk⟩ := h
  dsimp only at hk
  rw [eBind_ok] at hk
  obtain ⟨⟨v2, r2⟩, hm2, hk2⟩ := hk
  dsimp only at hk2
  rw [readLimits, eBind_ok]
  refine ⟨(flag, r1 ++ ext), readByte_append bs ext flag r1 hm, ?_⟩
  dsimp only
  rw [eBind_ok]
  refine ⟨(v2, r2 ++ ext), readLEB_append r1 ext v2 r2 hm2, ?_⟩
  dsimp only
  split at hk2
  · rename_i hflag
    rw [eBind_ok] at hk2
    obtain ⟨⟨v3, r3⟩, hm3, hk3⟩ := hk2
    simp only [Except.ok.injEq] at hk3
    subst hk3
    rw [if_pos hflag, eBind_ok]
    exact ⟨(v3, r3 ++ ext), readLEB_append r2 ext v3 r3 hm3, rfl⟩
  · rename_i hflag
    simp only [Except.ok.injEq] at hk2
    subst hk2
    rw [if_neg hflag]

theorem readEntry_append (bs ext : List Nat) (x : ImportRecord) (r : List Nat)
    (h : readEntry bs = .ok (x, r)) :
    readEntry (bs ++ ext) = .ok (x, r ++ ext) := by
  rw [readEntry, eBind_ok] at h
  obtain ⟨⟨m, r1⟩, hm, hk⟩ := h
  dsimp only at hk
  rw [eBind_ok] at hk
  obtain ⟨⟨f, r2⟩, hm2, hk2⟩ := hk
  dsimp only at hk2
  rw [eBind_ok] at hk2
  obtain ⟨⟨tag, r3⟩, hm3, hk3⟩ := hk2
  dsimp only at hk3
  rw [readEntry, eBind_ok]
  refine ⟨(m, r1 ++ ext), readName_append bs ext m r1 hm, ?_⟩
  dsimp only
  rw [eBind_ok]
  refine ⟨(f, r2 ++ ext), readName_append r1 ext f r2 hm2, ?_⟩
  dsimp only
  rw [eBind_ok]
  refine ⟨(tag, r3 ++ ext), readByte_append r2 ext tag r3 hm3, ?_⟩
  dsimp only
  split at hk3
  · rename_i htag
    rw [eBind_ok] at hk3
    obtain ⟨⟨v4, r4⟩, hm4, hk4⟩ := hk3
    simp only [Except.ok.injEq, Prod.mk.injEq] at hk4
    obtain ⟨rfl, rfl⟩ := hk4
    rw [if_pos htag, eBind_ok]
    exact ⟨(v4, r4 ++ ext), readLEB_append r3 ext v4 r4 hm4, rfl⟩
  · rename_i htag
    rw [if_neg htag]
    split at hk3
    · rename_i htag1
      rw [eBind_ok] at hk3
      obtain ⟨⟨v4, r4⟩, hm4, hk4⟩ := hk3
      dsimp only at hk4
      rw [eBind_ok] at hk4
      obtain ⟨r5, hm5, hk5⟩ := hk4
      simp only [Except.ok.injEq, Prod.mk.injEq] at hk5
      obtain ⟨rfl, rfl⟩ := hk5
      rw [if_pos htag1, eBind_ok]
      refine ⟨(v4, r4 ++ ext), readByte_append r3 ext v4 r4 hm4, ?_⟩
      dsimp only
      rw [eBind_ok]
      exact ⟨r5 ++ ext, readLimits_append r4 ext r5 hm5, rfl⟩
    · rename_i htag1
      rw [if_neg htag1]
      split at hk3
      · rename_i htag2
        rw [eBind_ok] at hk3
        obtain ⟨r4, hm4, hk4⟩ := hk3
        simp only [Except.ok.injEq, Prod.mk.injEq] at hk4
        obtain ⟨rfl, rfl⟩ := hk4
        rw [if_pos htag2, eBind_ok]
        exact ⟨r4 ++ ext, readLimits_append r3 ext r4 hm4, rfl⟩
      · rename_i htag2
        rw [if_neg htag2]
        split at hk3
        · rename_i htag3
          rw [eBind_ok] at hk3
          obtain ⟨⟨v4, r4⟩, hm4, hk4⟩ := hk3
          dsimp only at hk4
          rw [eBind_ok] at hk4
          obtain ⟨⟨v5, r5⟩, hm5, hk5⟩ := hk4
          simp only [Except.ok.injEq, Prod.mk.injEq] at hk5
          obtain ⟨rfl, rfl⟩ := hk5
          rw [if_pos htag3, eBind_ok]
          refine ⟨(v4, r4 ++ ext), readByte_append r3 ext v4 r4 hm4, ?_⟩
          dsimp only
          rw [eBind_ok]
          exact ⟨(v5, r5 ++ ext), readByte_append r4 ext v5 r5 hm5, rfl⟩
        · simp at hk3

theorem readEntries_append : ∀ (n : Nat) (bs ext : List Nat)
    (rs : List ImportRecord) (r : List Nat),
    readEntries n bs = .ok (rs, r) →
    readEntries n (bs ++ ext) = .ok (rs, r ++ ext) := by
  intro n
  induction n with
  | zero =>
    intro bs ext rs r h
    simp only [readEntries, Except.ok.injEq, Prod.mk.injEq] at h
    obtain ⟨rfl, rfl⟩ := h
    simp [readEntries]
  | succ n ih =>
    intro bs ext rs r h
    rw [readEntries, eBind_ok] at h
    obtain ⟨⟨x, rest⟩, hm, hk⟩ := h
    dsimp only at hk
    rw [eBind_ok] at hk
    obtain ⟨⟨rs2, rest2⟩, hm2, hk2⟩ := hk
    simp only [Except.ok.injEq, Prod.mk.injEq] at hk2
    obtain ⟨rfl, rfl⟩ := hk2
    rw [readEntries, eBind_ok]
    refine ⟨(x, rest ++ ext), readEntry_append bs ext x rest hm, ?_⟩
    dsimp only
    rw [eBind_ok]
    exact ⟨(rs2, rest2 ++ ext), ih rest ext rs2 rest2 hm2, rfl⟩

theorem decodeImportBody_append (bs ext : List Nat) (rs : List ImportRecord)
    (r : List Nat) (h : decodeImportBody bs = .ok (rs, r)) :
    decodeImportBody (bs ++ ext) = .ok (rs, r ++ ext) := by
  rw [decodeImportBody, eBind_ok] at h
  obtain ⟨⟨n, r1⟩, hm, hk⟩ := h
  rw [decodeImportBody, eBind_ok]
  exact ⟨(n, r1 ++ ext), readLEB_append bs ext n r1 hm,
    readEntries_append n r1 ext rs r hk⟩

/-! ## LEB128 encoder lemmas -/

theorem readLEB_lebEncodeF : ∀ (fuel n : Nat) (rest : List Nat), n ≤ fuel →
    readLEB (lebEncodeF fuel n ++ rest) = .ok (n, rest) := by
  intro fuel
  induction fuel with
  | zero =>
    intro n rest h
    have : n = 0 := Nat.le_zero.mp h
    subst this
    simp [lebEncodeF, readLEB]
  | succ fuel ih =>
    intro n rest h
    rw [lebEncodeF]
    split
    · rename_i hn
      rw [List.cons_append, readLEB, if_pos hn]
      simp
    · rename_i hn
      push_neg at hn
      rw [List.cons_append, readLEB,
        if_neg (by omega : ¬ n % 128 + 128 < 128)]
      have hdiv : n / 128 ≤ fuel := by
        have : n / 128 < n := Nat.div_lt_self (by omega) (by omega)
        omega
      rw [ih (n / 128) rest hdiv]
      simp only [eBind]
      have h1 : (n % 128 + 128) % 128 + 128 * (n / 128) = n := by omega
      rw [h1]

theorem readLEB_lebEncode (n : Nat) (rest : List Nat) :
    readLEB (lebEncode n ++ rest) = .ok (n, rest) :=
  readLEB_lebEncodeF n n rest (Nat.le_refl n)

theorem lebEncodeF_truncated : ∀ (fuel n j : Nat),
    j < (lebEncodeF fuel n).length →
    readLEB ((lebEncodeF fuel n).take j) = .error .UnexpectedEndOfInput := by
  intro fuel
  induction fuel with
  | zero =>
    intro n j h
    simp only [lebEncodeF, List.length_cons, List.length_nil] at h
    have : j = 0 := by omega
    subst this
    simp [readLEB]
  | succ fuel ih =>
    intro n j h
    rw [lebEncodeF] at h
    rw [lebEncodeF]
    split
    · rename_i hn
      rw [if_pos hn] at h
      simp only [List.length_cons, List.length_nil] at h
      have : j = 0 := by omega
      subst this
      simp [readLEB]
    · rename_i hn
      rw [if_neg hn] at h
      push_neg at hn
      cases j with
      | zero => simp [readLEB]
      | succ j =>
        rw [List.take_succ_cons, readLEB,
          if_neg (by omega : ¬ n % 128 + 128 < 128)]
        simp only [List.length_cons] at h
        rw [ih (n / 128) j (by omega)]
        simp [eBind]

/-! ## Section-loop lemmas -/

/-- The section loop run with its canonical fuel, the buffer length. -/
def runSecs (bs : List Nat) : Except DecodeError (List ImportRecord) :=
  decodeSections bs.length bs

theorem decode_imports_eq (bs : List Nat) :
    decode_imports bs =
      if bs.take 8 = wasmHeader then runSecs (bs.drop 8)
      else .error .BadHeader := rfl

theorem runSecs_nil : runSecs [] = .ok [] := rfl

theorem secsBytes_cons (s : Sec) (l : List Sec) :
    secsBytes (s :: l) = secBytes s ++ secsBytes l := rfl

theorem runSecs_skip (s : Sec) (rest : List Nat) (h : s.id ≠ 2) :
    runSecs (secBytes s ++ rest) = runSecs rest := by
  rw [runSecs, secBytes]
  rw [List.cons_append, List.append_assoc]
  simp only [List.length_cons]
  rw [decodeSections, readLEB_lebEncode]
  simp only [eBind]
  rw [if_neg h,
    if_pos (by simp : s.payload.length ≤ (s.payload ++ rest).length)]
  rw [List.drop_left]
  rw [runSecs]
  exact decodeSections_mono _ _ rest (by simp; omega) (Nat.le_refl _)

theorem runSecs_import (body rest : List Nat) (recs more : List ImportRecord)
    (hb : decodeImportBody body = .ok (recs, []))
    (hr : runSecs rest = .ok more) :
    runSecs (impBlock body ++ rest) = .ok (recs ++ more) := by
  rw [runSecs, impBlock]
  rw [List.cons_append, List.append_assoc]
  simp only [List.length_cons]
  rw [decodeSections, readLEB_lebEncode]
  simp only [eBind, if_true]
  have hb2 : decodeImportBody (body ++ rest) = .ok (recs, rest) := by
    have := decodeImportBody_append body rest recs [] hb
    simpa using this
  rw [hb2]
  simp only [eBind]
  rw [if_pos (by simp)]
  have hmono : decodeSections
      (lebEncode body.length ++ (body ++ rest)).length rest = runSecs rest := by
    rw [runSecs]
    exact decodeSections_mono _ _ rest (by simp; omega) (Nat.le_refl _)
  rw [hmono, hr]

theorem runSecs_skipAll (l : List Sec) (rest : List Nat)
    (h : ∀ s ∈ l, s.id ≠ 2) :
    runSecs (secsBytes l ++ rest) = runSecs rest := by
  induction l with
  | nil => simp [secsBytes]
  | cons s l ih =>
    rw [secsBytes_cons, List.append_assoc,
      runSecs_skip s _ (h s (List.mem_cons_self s l))]
    exact ih fun x hx => h x (List.mem_cons_of_mem s hx)

theorem decodeSections_nil (fuel : Nat) : decodeSections fuel [] = .ok [] := by
  cases fuel <;> rfl

theorem decode_imports_header (x : List Nat) :
    decode_imports (wasmHeader ++ x) = runSecs x := by
  have h1 : (wasmHeader ++ x).take 8 = wasmHeader := List.take_left wasmHeader x
  have h2 : (wasmHeader ++ x).drop 8 = x := List.drop_left wasmHeader x
  rw [decode_imports_eq, h1, h2, if_pos rfl]

theorem runSecs_impBlock_inv (body : List Nat) (recs : List ImportRecord)
    (h : runSecs (impBlock body) = .ok recs) :
    decodeImportBody body = .ok (recs, []) := by
  rw [runSecs, impBlock] at h
  simp only [List.length_cons] at h
  rw [decodeSections, readLEB_lebEncode] at h
  rw [eBind_pure] at h
  dsimp only at h
  rw [if_pos (show (2 : Nat) = 2 from rfl)] at h
  rw [eBind_ok] at h
  obtain ⟨⟨recs0, r2⟩, hb, hk⟩ := h
  dsimp only at hk
  have hbody : body ≠ [] := by
    intro he
    subst he
    simp [decodeImportBody, readLEB, eBind] at hb
  split at hk
  · rename_i hc
    have hlen := decodeImportBody_length body recs0 r2 hb
    have hr2 : r2 = [] := by
      rw [← List.length_eq_zero]
      omega
    subst hr2
    rw [decodeSections_nil] at hk
    simp only [eBind, List.append_nil, Except.ok.injEq] at hk
    subst hk
    exact hb
  · simp at hk

/-! ## Claim theorems: decoder -/

/-- C6: a well-formed module with no import section (any sequence of
non-import sections after the header), or one whose import section declares
zero entries, decodes to the empty record sequence — not an error — and the
classification of the empty sequence is the all-empty summary with total
count zero. -/
theorem c6_empty_imports :
    (∀ l : List Sec, (∀ s ∈ l, s.id ≠ 2) →
      decode_imports (wasmHeader ++ secsBytes l) = .ok []) ∧
    (∀ pre post : List Sec,
      (∀ s ∈ pre, s.id ≠ 2) → (∀ s ∈ post, s.id ≠ 2) →
      decode_imports
        (wasmHeader ++ (secsBytes pre ++ (impBlock [0] ++ secsBytes post))) =
          .ok []) ∧
    classify [] = Assumptions.new ∧
    Assumptions.new.count = 0 := by
  have hsecs : ∀ l : List Sec, (∀ s ∈ l, s.id ≠ 2) →
      runSecs (secsBytes l) = .ok [] := by
    intro l hl
    rw [← List.append_nil (secsBytes l), runSecs_skipAll l [] hl, runSecs_nil]
  refine ⟨?_, ?_, rfl, rfl⟩
  · intro l hl
    rw [decode_imports_header]
    exact hsecs l hl
  · intro pre post hpre hpost
    rw [decode_imports_header, runSecs_skipAll pre _ hpre]
    have : runSecs (impBlock [0] ++ secsBytes post) = .ok ([] ++ []) :=
      runSecs_import [0] (secsBytes post) [] [] (by decide) (hsecs post hpost)
    simpa using this

/-- C6 witness: the no-import-section and zero-entry parts applied to the
concrete modules with one custom section (id 11, three payload bytes) before
and one data-like section (id 9, one payload byte) after. -/
theorem c6_witness :
    (∀ s ∈ [Sec.mk 11 [7, 7, 7]], s.id ≠ 2) ∧
    decode_imports (wasmHeader ++ secsBytes [Sec.mk 11 [7, 7, 7]]) = .ok [] ∧
    decode_imports (wasmHeader ++ (secsBytes [Sec.mk 11 [7, 7, 7]] ++
      (impBlock [0] ++ secsBytes [Sec.mk 9 [1]]))) = .ok [] := by
  refine ⟨by decide, ?_, ?_⟩
  · exact c6_empty_imports.1 [Sec.mk 11 [7, 7, 7]] (by decide)
  · exact c6_empty_imports.2.1 [Sec.mk 11 [7, 7, 7]] [Sec.mk 9 [1]]
      (by decide) (by decide)

/-- C8: skip round-trip — for every module consisting of the header,
arbitrary well-formed non-import sections before and after one import
section, the decoded import records are identical to those of the module
containing only that import section: skipped sections never affect the
decoded imports. -/
theorem c8_skip_roundtrip (pre post : List Sec) (body : List Nat)
    (recs : List ImportRecord)
    (hpre : ∀ s ∈ pre, s.id ≠ 2) (hpost : ∀ s ∈ post, s.id ≠ 2)
    (h : decode_imports (wasmHeader ++ impBlock body) = .ok recs) :
    decode_imports
      (wasmHeader ++ (secsBytes pre ++ (impBlock body ++ secsBytes post))) =
        .ok recs := by
  rw [decode_imports_header] at h
  have hb := runSecs_impBlock_inv body recs h
  rw [decode_imports_header, runSecs_skipAll pre _ hpre]
  have hr : runSecs (secsBytes post) = .ok [] := by
    rw [← List.append_nil (secsBytes post), runSecs_skipAll post [] hpost,
      runSecs_nil]
  have := runSecs_import body (secsBytes post) recs [] hb hr
  simpa using this

/-- C8 witness: the round-trip applied to a concrete module — a type-like
section (id 1) and a custom section (id 0) around an import section with one
entry `("a","b",Function)`, and a table-like section (id 4) after it. -/
theorem c8_witness :
    decode_imports (wasmHeader ++ impBlock [1, 1, 97, 1, 98, 0, 0]) =
      .ok [⟨"a", "b", .Function⟩] ∧
    decode_imports (wasmHeader ++ (secsBytes [Sec.mk 1 [96], Sec.mk 0 []] ++
      (impBlock [1, 1, 97, 1, 98, 0, 0] ++ secsBytes [Sec.mk 4 [5, 5]]))) =
        .ok [⟨"a", "b", .Function⟩] := by
  refine ⟨by decide, ?_⟩
  exact c8_skip_roundtrip [Sec.mk 1 [96], Sec.mk 0 []] [Sec.mk 4 [5, 5]]
    [1, 1, 97, 1, 98, 0, 0] [⟨"a", "b", .Function⟩] (by decide) (by decide)
    (by decide)

/-- C5: any decode failure aborts classification entirely — the pipeline
produces no summary and surfaces the decode error verbatim as its own
result, with no retry — while a successful decode yields exactly the report
of the classified records. -/
theorem c5_error_propagation :
    (∀ (bs : List Nat) (v : Bool) (e : DecodeError),
      decode_imports bs = .error e → run bs v = .error e) ∧
    (∀ (bs : List Nat) (v : Bool) (recs : List ImportRecord),
      decode_imports bs = .ok recs →
      run bs v = .ok (report (classify recs) v)) := by
  constructor <;> intro bs v x h <;> rw [run, h] <;> rfl

/-- C5 witness: the empty buffer fails with `BadHeader` and the pipeline
surfaces exactly that error. -/
theorem c5_witness :
    decode_imports ([] : List Nat) = .error .BadHeader ∧
    run ([] : List Nat) false = .error .BadHeader :=
  ⟨by decide, c5_error_propagation.1 [] false .BadHeader (by decide)⟩

/-! ## Truncation lemmas -/

theorem lebEncode_truncated (n j : Nat) (h : j < (lebEncode n).length) :
    readLEB ((lebEncode n).take j) = .error .UnexpectedEndOfInput :=
  lebEncodeF_truncated n n j h

theorem cutSec_err (s : Sec) (j fuel : Nat) (hid : s.id ≠ 2) (h1 : 1 ≤ j)
    (h2 : j < (secBytes s).length) :
    ∃ e, decodeSections fuel ((secBytes s).take j) = .error e := by
  have hlen : (secBytes s).length =
      (lebEncode s.payload.length).length + s.payload.length + 1 := by
    simp [secBytes]
  obtain ⟨j', rfl⟩ : ∃ j', j = j' + 1 := ⟨j - 1, by omega⟩
  rw [secBytes, List.take_succ_cons]
  cases fuel with
  | zero => exact ⟨.UnexpectedEndOfInput, rfl⟩
  | succ fuel =>
    rw [decodeSections]
    by_cases hj : j' < (lebEncode s.payload.length).length
    · rw [List.take_append_of_le_length (by omega)]
      rw [lebEncode_truncated _ _ hj]
      exact ⟨.UnexpectedEndOfInput, rfl⟩
    · push_neg at hj
      rw [List.take_append_eq_append_take, List.take_of_length_le hj,
        readLEB_lebEncode, eBind_pure]
      dsimp only
      rw [if_neg hid]
      rw [if_neg (by simp [List.length_take]; omega)]
      exact ⟨.TruncatedSection, rfl⟩

theorem cutImp_err (body : List Nat) (j fuel : Nat) (h1 : 1 ≤ j)
    (h2 : j < (impBlock body).length) :
    ∃ e, decodeSections fuel ((impBlock body).take j) = .error e := by
  have hlen : (impBlock body).length =
      (lebEncode body.length).length + body.length + 1 := by
    simp [impBlock]
  obtain ⟨j', rfl⟩ : ∃ j', j = j' + 1 := ⟨j - 1, by omega⟩
  rw [impBlock, List.take_succ_cons]
  cases fuel with
  | zero => exact ⟨.UnexpectedEndOfInput, rfl⟩
  | succ fuel =>
    rw [decodeSections]
    by_cases hj : j' < (lebEncode body.length).length
    · rw [List.take_append_of_le_length (by omega)]
      rw [lebEncode_truncated _ _ hj]
      exact ⟨.UnexpectedEndOfInput, rfl⟩
    · push_neg at hj
      rw [List.take_append_eq_append_take, List.take_of_length_le hj,
        readLEB_lebEncode, eBind_pure]
      dsimp only
      rw [if_pos (show (2 : Nat) = 2 from rfl)]
      cases hb : decodeImportBody (body.take (j' - (lebEncode body.length).length)) with
      | error e => exact ⟨e, rfl⟩
      | ok p =>
        obtain ⟨recs0, r2⟩ := p
        rw [eBind_pure]
        dsimp only
        rw [if_neg (by simp [List.length_take]; omega)]
        exact ⟨.SectionLengthMismatch, rfl⟩

theorem cutSecs : ∀ (l : List Sec) (body : List Nat) (j : Nat),
    (∀ s ∈ l, s.id ≠ 2) → j < (secsBytes l ++ impBlock body).length →
    (∃ e, runSecs ((secsBytes l ++ impBlock body).take j) = .error e) ∨
    runSecs ((secsBytes l ++ impBlock body).take j) = .ok [] := by
  intro l
  induction l with
  | nil =>
    intro body j hl h2
    rw [show secsBytes ([] : List Sec) = [] from rfl, List.nil_append] at h2 ⊢
    cases Nat.eq_zero_or_pos j with
    | inl hz =>
      subst hz
      right
      simp [runSecs_nil]
    | inr hpos =>
      left
      exact cutImp_err body j _ hpos h2
  | cons s l ih =>
    intro body j hl h2
    have hid : s.id ≠ 2 := hl s (List.mem_cons_self s l)
    rw [secsBytes_cons, List.append_assoc] at h2 ⊢
    by_cases hj : j < (secBytes s).length
    · cases Nat.eq_zero_or_pos j with
      | inl hz =>
        subst hz
        right
        simp [runSecs_nil]
      | inr hpos =>
        left
        rw [List.take_append_of_le_length (by omega)]
        exact cutSec_err s j _ hid hpos hj
    · push_neg at hj
      rw [List.take_append_eq_append_take, List.take_of_length_le hj,
        runSecs_skip s _ hid]
      apply ih body (j - (secBytes s).length)
        (fun x hx => hl x (List.mem_cons_of_mem s hx))
      simp only [List.length_append] at h2 ⊢
      omega

/-- A small well-formed module: the 8-byte header followed by one import
section declaring a single entry `("a","b",Function)`. -/
def sampleModule : List Nat := wasmHeader ++ impBlock [1, 1, 97, 1, 98, 0, 0]

/-- C4 counterexample: `sampleModule` is well formed and decodes to a single
record, so truncating it to its first 8 bytes cuts strictly before
the import-section decode completes; yet the decoder returns the successful
empty result on that truncation — the truncated buffer is itself a complete
module with no import section — not an error from the taxonomy as the claim
requires. -/
theorem c4_counterexample :
    decode_imports sampleModule = .ok [⟨"a", "b", .Function⟩] ∧
    8 < sampleModule.length ∧
    decode_imports (sampleModule.take 8) = .ok [] := by
  decide

/-- C4 amended: truncating a module of the form header, non-import sections,
one import section, at any point strictly before the end (hence strictly
before the import-section decode completes) yields either one of the
error-taxonomy results or the successful empty import sequence (the latter
exactly when the cut lands on a section boundary before the import section);
the decoder is total, never reads out of bounds, and never fabricates
an import record from a truncated buffer. -/
theorem c4_truncation_amended (pre : List Sec) (body : List Nat) (k : Nat)
    (hpre : ∀ s ∈ pre, s.id ≠ 2)
    (hk : k < (wasmHeader ++ (secsBytes pre ++ impBlock body)).length) :
    (∃ e, decode_imports
      ((wasmHeader ++ (secsBytes pre ++ impBlock body)).take k) = .error e) ∨
    decode_imports
      ((wasmHeader ++ (secsBytes pre ++ impBlock body)).take k) = .ok [] := by
  by_cases hk8 : k < 8
  · left
    refine ⟨.BadHeader, ?_⟩
    rw [decode_imports_eq]
    rw [if_neg ?_]
    intro hc
    have hlc := congrArg List.length hc
    have h8 : wasmHeader.length = 8 := rfl
    rw [h8, List.length_take, List.length_take] at hlc
    omega
  · push_neg at hk8
    have h8 : wasmHeader.length = 8 := rfl
    rw [List.take_append_eq_append_take,
      List.take_of_length_le (by omega : wasmHeader.length ≤ k), h8,
      decode_imports_header]
    apply cutSecs pre body (k - 8) hpre
    simp only [List.length_append] at hk ⊢
    rw [h8] at hk
    omega

/-- C4 witness: the amended statement applied to a concrete module with one
custom section (id 11) before the import section, cut at byte 12, which
falls inside the custom section. -/
theorem c4_witness :
    (∀ s ∈ [Sec.mk 11 [7, 7, 7]], s.id ≠ 2) ∧
    12 < (wasmHeader ++ (secsBytes [Sec.mk 11 [7, 7, 7]] ++
      impBlock [1, 1, 97, 1, 98, 0, 0])).length ∧
    ((∃ e, decode_imports ((wasmHeader ++ (secsBytes [Sec.mk 11 [7, 7, 7]] ++
        impBlock [1, 1, 97, 1, 98, 0, 0])).take 12) = .error e) ∨
      decode_imports ((wasmHeader ++ (secsBytes [Sec.mk 11 [7, 7, 7]] ++
        impBlock [1, 1, 97, 1, 98, 0, 0])).take 12) = .ok []) :=
  ⟨by decide, by decide,
    c4_truncation_amended [Sec.mk 11 [7, 7, 7]] [1, 1, 97, 1, 98, 0, 0] 12
      (by decide) (by decide)⟩
